import Mathlib

set_option maxHeartbeats 1000000

/-!
Verification development for the infra-core configuration-tree builder,
command categorization strategy and concurrent command runner.

The YAML text layer (ruamel.yaml) is an external library; serialization is
therefore modelled at the level of the parsed data (`YData`): `to_yaml`
renders `to_dict`'s data and `load_from_string` parses text back to the same
data, so the composition of dump and parse is the identity on `YData`.
-/

/-- Scalar leaf values that can appear in the configuration tree: strings,
integers and booleans, as produced by the YAML layer. -/
inductive Scalar where
  | str (s : String)
  | int (n : Int)
  | bool (b : Bool)
deriving DecidableEq

/-- Parsed YAML data: scalars, sequences and insertion-ordered maps
(association lists).  This is the shape the YAML library hands to
`load_from_string` and the shape `to_dict` produces. -/
inductive YData where
  | scalar (s : Scalar)
  | seq (xs : List YData)
  | map (kvs : List (String × YData))

/-- Modelled from the spec: `YamlValue` (yaml_value.py, not in src) wraps a
scalar value and its `to_dict` returns the wrapped scalar; list values are
stored unwrapped, as `_parse_dict_to_tree` does.  A node's value is therefore
either absent, a wrapped scalar, or a plain sequence (spec 3: ConfigNode
value is one of absent, scalar, ordered-sequence-of-scalar-or-map). -/
inductive NodeVal where
  | scalar (s : Scalar)
  | seq (xs : List YData)

/-- Modelled from the spec: `YAMLNode` (yaml_node.py, not in src) — a labeled
tree node with a name, an optional value and an ordered list of children
(spec 3: ConfigNode).  The parent back-reference of the source is represented
by the builder's zipper context rather than a stored pointer. -/
inductive YNode where
  | mk (name : String) (value : Option NodeVal) (children : List YNode)

def YNode.name : YNode → String
  | .mk n _ _ => n

def YNode.value : YNode → Option NodeVal
  | .mk _ v _ => v

def YNode.children : YNode → List YNode
  | .mk _ _ cs => cs

/-- One level of zipper context: the parent's name and value, and the
siblings to the left and to the right of the focused child. -/
structure Crumb where
  name : String
  value : Option NodeVal
  left : List YNode
  right : List YNode

/-- The fluent builder: either no root yet (`root is None` in the source), or
a cursor focused on one node with the path up to the root recorded as crumbs
(innermost parent first).  This zipper is the shallow embedding of the
source's node-with-parent-pointer representation plus `self.current`. -/
inductive FluentYAMLBuilder where
  | empty
  | tree (cur : YNode) (crumbs : List Crumb)

namespace FluentYAMLBuilder

/-- Rebuilds the tree from the focus upward, yielding the root node. -/
def rebuild : YNode → List Crumb → YNode
  | cur, [] => cur
  | cur, c :: cs => rebuild (.mk c.name c.value (c.left ++ cur :: c.right)) cs

/-- The node the cursor currently points at, if any. -/
def focusOpt : FluentYAMLBuilder → Option YNode
  | .empty => none
  | .tree cur _ => some cur

/-- The root node of the builder's tree, if any. -/
def rootNode : FluentYAMLBuilder → Option YNode
  | .empty => none
  | .tree cur crumbs => some (rebuild cur crumbs)

/-- Errors raised by the builder (Python exceptions), spec 7 taxonomy. -/
inductive BuildError where
  | pathNotFound (segment : String) (traversed : List String)
  | nodeNotFound (name : String)
  | cannotDeleteRoot
  | rootMismatch (expected found : String)
  | invalidYaml
  | noRoot
deriving DecidableEq

/-- Embeds `FluentYAMLBuilder.add_child`: the first call establishes the root
(ignoring `stay`); otherwise a child is appended under the cursor and, unless
`stay` is true, the cursor moves to the new child. -/
def add_child (b : FluentYAMLBuilder) (name : String) (value : Option NodeVal)
    (stay : Bool) : FluentYAMLBuilder :=
  match b with
  | .empty => .tree (.mk name value []) []
  | .tree (.mk n v cs) crumbs =>
    if stay then .tree (.mk n v (cs ++ [.mk name value []])) crumbs
    else .tree (.mk name value []) (⟨n, v, cs, []⟩ :: crumbs)

/-- Embeds `FluentYAMLBuilder.up`: moves the cursor to its parent if one
exists, otherwise leaves the builder unchanged. -/
def up : FluentYAMLBuilder → FluentYAMLBuilder
  | .empty => .empty
  | .tree cur [] => .tree cur []
  | .tree cur (c :: cs) => .tree (.mk c.name c.value (c.left ++ cur :: c.right)) cs

/-- Assignment `self.current.value = v` used by `_parse_dict_to_tree`. -/
def setCurValue : FluentYAMLBuilder → Option NodeVal → FluentYAMLBuilder
  | .empty, _ => .empty
  | .tree (.mk n _ cs) crumbs, v => .tree (.mk n v cs) crumbs

/-- Modelled from the spec: `YAMLNode.remove_child` (yaml_node.py, not in
src); removes the first child bearing the given name, implementing
`deleteCurrent`'s removal of the cursor node from its parent's children. -/
def removeFirstByName : List YNode → String → List YNode
  | [], _ => []
  | c :: cs, nm => if c.name = nm then cs else c :: removeFirstByName cs nm

/-- Embeds `FluentYAMLBuilder.delete_current`: at the root it raises
`ValueError("Cannot delete root node")`; otherwise it removes the first
child of the parent named like the cursor and moves the cursor to the
parent.  On a rootless builder the attribute access on `None` fails. -/
def delete_current : FluentYAMLBuilder → Except BuildError FluentYAMLBuilder
  | .empty => .error .noRoot
  | .tree _ [] => .error .cannotDeleteRoot
  | .tree cur (c :: cs) =>
    .ok (.tree (.mk c.name c.value
      (removeFirstByName (c.left ++ cur :: c.right) cur.name)) cs)

/-- Modelled from the spec: `YAMLNode.find_child` (yaml_node.py, not in src);
returns the first child with the given name, split from its siblings so the
zipper can descend into it. -/
def splitFirstByName : List YNode → String → Option (List YNode × YNode × List YNode)
  | [], _ => none
  | c :: cs, nm =>
    if c.name = nm then some ([], c, cs)
    else match splitFirstByName cs nm with
      | none => none
      | some (l, m, r) => some (c :: l, m, r)

/-- Descent loop of `navigate_to`: follows each path segment by first-child
name match, accumulating the successfully traversed key sequence for the
error message. -/
def navDescend : YNode → List Crumb → List String → List String →
    Except BuildError FluentYAMLBuilder
  | cur, crumbs, [], _ => .ok (.tree cur crumbs)
  | cur, crumbs, key :: rest, trav =>
    match splitFirstByName cur.children key with
    | none => .error (.pathNotFound key trav)
    | some (l, m, r) =>
      navDescend m (⟨cur.name, cur.value, l, r⟩ :: crumbs) rest (trav ++ [key])

/-- Embeds `FluentYAMLBuilder.navigate_to`: walks from the root following
each path segment by child name; raises a `KeyError` naming the failing
segment and the traversed path if a segment is absent. -/
def navigate_to (b : FluentYAMLBuilder) (path : List String) :
    Except BuildError FluentYAMLBuilder :=
  match b with
  | .empty =>
    match path with
    | [] => .ok .empty
    | _ :: _ => .error .noRoot
  | .tree cur crumbs => navDescend (rebuild cur crumbs) [] path []

mutual
/-- Embeds the `recursive_search` closure of `navigate_to_recursively`: the
node itself is matched before its children, and each child's subtree is
searched completely before the next sibling. -/
def searchZ (name : String) : YNode → List Crumb → Option FluentYAMLBuilder
  | .mk n v cs, crumbs =>
    if n = name then some (.tree (.mk n v cs) crumbs)
    else searchChildren name n v crumbs [] cs

/-- Left-to-right search over the children, carrying the zipper context for
the child currently being searched. -/
def searchChildren (name pn : String) (pv : Option NodeVal) (crumbs : List Crumb)
    (leftAcc : List YNode) : List YNode → Option FluentYAMLBuilder
  | [] => none
  | c :: rest =>
    match searchZ name c (⟨pn, pv, leftAcc, rest⟩ :: crumbs) with
    | some b => some b
    | none => searchChildren name pn pv crumbs (leftAcc ++ [c]) rest
end

/-- Embeds `FluentYAMLBuilder.navigate_to_recursively`: depth-first search
from the root for the first node with the given name; raises a `KeyError` if
no node matches. -/
def navigate_to_recursively (b : FluentYAMLBuilder) (name : String) :
    Except BuildError FluentYAMLBuilder :=
  match b with
  | .empty => .error .noRoot
  | .tree cur crumbs =>
    match searchZ name (rebuild cur crumbs) [] with
    | some b => .ok b
    | none => .error (.nodeNotFound name)

/-- Dict update step of `to_dict`: a repeated key appends to an existing list
value, promotes a non-list value to a two-element list, and a fresh key is
inserted at the end, exactly as the source's result-dict manipulation does. -/
def upsert : List (String × YData) → String → YData → List (String × YData)
  | [], k, v => [(k, v)]
  | (k', v') :: rest, k, v =>
    if k' = k then
      match v' with
      | .seq xs => (k', .seq (xs ++ [v])) :: rest
      | w => (k', .seq [w, v]) :: rest
    else (k', v') :: upsert rest k v

mutual
/-- Embeds the per-node result of `FluentYAMLBuilder.to_dict`, without the
enclosing single-entry dict: a list value is returned as is, a wrapped
scalar via its `to_dict`, and otherwise the children are folded into a map
with the duplicate-name merge rule (an empty fold gives the empty map). -/
def toDictVal : YNode → YData
  | .mk _ (some (.seq xs)) _ => .seq xs
  | .mk _ (some (.scalar s)) _ => .scalar s
  | .mk _ none cs => .map (foldChildren [] cs)

/-- Folds the children left to right, merging each child's single entry into
the accumulated map via `upsert`. -/
def foldChildren : List (String × YData) → List YNode → List (String × YData)
  | acc, [] => acc
  | acc, c :: cs => foldChildren (upsert acc c.name (toDictVal c)) cs
end

/-- Embeds `FluentYAMLBuilder.to_dict` on a node: the single-entry dict
mapping the node's name to its converted value. -/
def toDict (n : YNode) : YData := .map [(n.name, toDictVal n)]

/-- Embeds `FluentYAMLBuilder.build`: converts the whole tree to its map
form. -/
def build : FluentYAMLBuilder → Option YData
  | .empty => none
  | .tree cur crumbs => some (toDict (rebuild cur crumbs))

mutual
/-- Embeds `_parse_dict_to_tree`: maps add one child per key with
`stay = True` and recurse, then move up; lists are stored as values;
scalars are wrapped into `YamlValue` and stored as the current value. -/
def parseTree (b : FluentYAMLBuilder) : YData → FluentYAMLBuilder
  | .scalar s => b.setCurValue (some (.scalar s))
  | .seq xs => b.setCurValue (some (.seq xs))
  | .map kvs => parseEntries b kvs

/-- Iterates `_parse_dict_to_tree` over the entries of a map. -/
def parseEntries (b : FluentYAMLBuilder) : List (String × YData) → FluentYAMLBuilder
  | [] => b
  | (k, v) :: rest =>
    parseEntries (((b.add_child k none true).parseTree v).up) rest
end

/-- Embeds `FluentYAMLBuilder.load_from_string`, at the level of the parsed
data: a non-map document raises `ValueError`; the first top-level key
becomes the root if none exists, must equal the existing root's name
otherwise (else `RootMismatchError`), and the value under it is handed to
`_parse_dict_to_tree` starting from the current cursor. -/
def load_from_string (b : FluentYAMLBuilder) (data : YData) :
    Except BuildError FluentYAMLBuilder :=
  match data with
  | .scalar _ => .error .invalidYaml
  | .seq _ => .error .invalidYaml
  | .map [] => .error .invalidYaml
  | .map ((k, v) :: _) =>
    match b with
    | .empty => .ok (parseTree (.tree (.mk k none []) []) v)
    | .tree cur crumbs =>
      let r := rebuild cur crumbs
      if r.name = k then .ok (parseTree (.tree cur crumbs) v)
      else .error (.rootMismatch r.name k)

end FluentYAMLBuilder

/-- Modelled from the spec: `VmType` (domain/multipass/vm_type.py, not in
src) — the role enum `manager | worker` (spec 3: VmEntity). -/
inductive VmType where
  | manager
  | worker
deriving DecidableEq

/-- Embeds `VmEntity` (domain/multipass/vm_entity.py). -/
structure VmEntity where
  vm_instance : String
  vm_type : VmType
  ipaddress : String
  gateway : String
  memory : String
  disk : String
deriving DecidableEq

/-- Modelled from the spec: `CommandEntity` (domain/command/command_entity.py,
not in src) — an index for ordering, description and command strings with a
placeholder, and the runner-kind tag (spec 3: CommandTemplate). -/
structure CommandEntity where
  index : Nat
  description : String
  command : String
  runner : String
deriving DecidableEq

/-- Embeds `ExecutableCommandEntity`
(domain/command/command_executer/excecuteable_commands.py, not in src):
the resolved, instance-bound command.  The runner handle is modelled by the
kind tag that selected it. -/
structure ExecutableCommandEntity where
  vm_instance_name : String
  description : String
  command : String
  runner : String
deriving DecidableEq

/-- Consumes the given character sequence from the front of the input,
returning the remaining input, or nothing if the input does not start with
it. -/
def dropPat : List Char → List Char → Option (List Char)
  | [], cs => some cs
  | _ :: _, [] => none
  | q :: qs, c :: cs => if c = q then dropPat qs cs else none

/-- Replace-all loop over the characters: at each position, a match of the
pattern `p :: ps` is replaced by `repl`, otherwise one character is copied.
The fuel argument, instantiated with the input length, only bounds the
recursion (every step consumes at least one input character) and keeps the
definition structurally recursive. -/
def substCharsAux (p : Char) (ps repl : List Char) : Nat → List Char → List Char
  | _, [] => []
  | 0, cs => cs
  | fuel + 1, c :: cs =>
    if c = p then
      match dropPat ps cs with
      | some rest => repl ++ substCharsAux p ps repl fuel rest
      | none => c :: substCharsAux p ps repl fuel cs
    else c :: substCharsAux p ps repl fuel cs

/-- Embeds Python's `str.format(vm_instance=inst)` on the template strings:
every occurrence of the placeholder `\x7bvm_instance\x7d` is replaced by the
instance name. -/
def substVmInstance (s inst : String) : String :=
  match "\x7bvm_instance\x7d".toList with
  | [] => s
  | p :: ps => String.mk (substCharsAux p ps inst.toList s.toList.length s.toList)

/-- Modelled from the spec: the command-runner factory
(infrastructure/adapters/command_runner/command_runner_factory.py, not in
src) resolves the runner from the template's runner-kind tag; the returned
handle is identified by that kind. -/
def get_runner (kind : String) : String := kind

/-- Modelled from the spec: `PortVmRepository.find_vm_instances_by_type` —
the VM directory lists the instance names of all VMs with the given role. -/
def find_vm_instances_by_type (repo : List VmEntity) (t : VmType) : List String :=
  (repo.filter (fun e => e.vm_type = t)).map (fun e => e.vm_instance)

/-- One VM instance's commands, keyed by index (a Python dict, so insertion
ordered with unique keys). -/
abbrev CommandRow := List (Nat × ExecutableCommandEntity)

/-- The execution plan: instance name to command row (a Python dict). -/
abbrev ExecutionPlan := List (String × CommandRow)

/-- Dict assignment `row[idx] = e`: replaces the value of an existing key in
place, otherwise appends the new key at the end. -/
def rowSet : CommandRow → Nat → ExecutableCommandEntity → CommandRow
  | [], i, e => [(i, e)]
  | (j, f) :: rest, i, e =>
    if j = i then (j, e) :: rest else (j, f) :: rowSet rest i e

/-- Dict lookup `row[idx]`. -/
def rowGet : CommandRow → Nat → Option ExecutableCommandEntity
  | [], _ => none
  | (j, f) :: rest, i => if j = i then some f else rowGet rest i

/-- Dict `plan.setdefault(vm, {})`. -/
def planSetDefault : ExecutionPlan → String → ExecutionPlan
  | [], vm => [(vm, [])]
  | (v, r) :: rest, vm =>
    if v = vm then (v, r) :: rest else (v, r) :: planSetDefault rest vm

/-- Applies a function to the row of an existing key. -/
def planMapRow : ExecutionPlan → String → (CommandRow → CommandRow) → ExecutionPlan
  | [], _, _ => []
  | (v, r) :: rest, vm, f =>
    if v = vm then (v, f r) :: rest else (v, r) :: planMapRow rest vm f

/-- Dict lookup `plan[vm]`. -/
def planRow : ExecutionPlan → String → Option CommandRow
  | [], _ => none
  | (v, r) :: rest, vm => if v = vm then some r else planRow rest vm

/-- Embeds `executable_commands.setdefault(vm, {});
executable_commands[vm][index] = e` from `ManagerStrategy.categorize`. -/
def planInsert (plan : ExecutionPlan) (vm : String) (idx : Nat)
    (e : ExecutableCommandEntity) : ExecutionPlan :=
  planMapRow (planSetDefault plan vm) vm (fun r => rowSet r idx e)

/-- Lookup `plan[vm][idx]`. -/
def planGet (plan : ExecutionPlan) (vm : String) (idx : Nat) :
    Option ExecutableCommandEntity :=
  (planRow plan vm).bind (fun r => rowGet r idx)

/-- Embeds `ManagerStrategy.categorize`: the VM directory is queried for the
strategy's role; exactly one matching instance yields one resolved command
inserted at `plan[instance][command.index]` with the placeholder substituted
and the runner selected from the runner kind; any other count leaves the
plan untouched. -/
def ManagerStrategy.categorize (repo : List VmEntity) (vm_type : VmType)
    (command : CommandEntity) (executable_commands : ExecutionPlan) : ExecutionPlan :=
  match find_vm_instances_by_type repo vm_type with
  | [vm_instance_name] =>
    planInsert executable_commands vm_instance_name command.index
      { vm_instance_name := vm_instance_name
        description := substVmInstance command.description vm_instance_name
        command := substVmInstance command.command vm_instance_name
        runner := get_runner command.runner }
  | _ => executable_commands

/-- One discrete status event handed to the UI surface (spec 6: the core
calls the UI with `(task, step, result, instance)`). -/
structure StatusEvent where
  task : String
  step : String
  result : String
  «instance» : String
deriving DecidableEq

/-- Sorts a command row into ascending index order (insertion sort). -/
def sortByIndex : CommandRow → CommandRow
  | [] => []
  | (i, e) :: rest => insertByIndex (i, e) (sortByIndex rest)
where
  insertByIndex : Nat × ExecutableCommandEntity → CommandRow → CommandRow
  | (i, e), [] => [(i, e)]
  | (i, e), (j, f) :: rest =>
    if i ≤ j then (i, e) :: (j, f) :: rest
    else (j, f) :: insertByIndex (i, e) rest

/-- Modelled from the spec: `CommandExecuter.execute`
(domain/command/command_executer/command_executer.py, not in src) — runs one
instance's commands in ascending index order as one sequential unit, emits a
status event per command, and captures the first failure as the unit's error
value (spec 4.3); the per-command outcome is supplied by the external
process runner `runCmd`. -/
def executeUnit (runCmd : ExecutableCommandEntity → Except String String) :
    CommandRow → Except String (List String) × List StatusEvent
  | row => go (sortByIndex row)
where
  go : CommandRow → Except String (List String) × List StatusEvent
  | [] => (.ok [], [])
  | (_, e) :: rest =>
    match runCmd e with
    | .ok out =>
      let (r, evs) := go rest
      (r.map (fun outs => out :: outs),
        ⟨"execute", e.description, "success", e.vm_instance_name⟩ :: evs)
    | .error msg =>
      (.error msg, [⟨"execute", e.description, "error", e.vm_instance_name⟩])

/-- Aggregated outcome of `CommandRunnerUI.run`: the per-instance results in
instance-key order, and the status events in emission order. -/
structure RunOutcome where
  results : List (Except String (List String))
  trace : List StatusEvent

/-- Embeds `CommandRunnerUI.run`: one task per instance key is created and
gathered with `return_exceptions=True` (modelled by its documented stdlib
semantics: every task runs to completion and a raised failure is returned in
that task's result slot instead of cancelling the others), then the single
terminal status update is emitted before the results are returned. -/
def CommandRunnerUI.run (runCmd : ExecutableCommandEntity → Except String String)
    (command_list : ExecutionPlan) : RunOutcome :=
  let instances := command_list.map (fun kv => kv.1)
  let units := instances.map
    (fun vm => executeUnit runCmd ((planRow command_list vm).getD []))
  { results := units.map (fun u => u.1)
    trace := (units.map (fun u => u.2)).flatten
      ++ [⟨"finished", "execution", "success", "all"⟩] }

/-- Modelled from the spec: the address objects of the `Network` domain
entity (domain/network/network.py, not in src), whose `ip_address` field
holds the textual address. -/
structure IpAddress where
  ip_address : String

/-- Modelled from the spec: the `Network` domain entity carrying the VM's
static address and gateway. -/
structure Network where
  ip_address : IpAddress
  gateway : IpAddress

/-- Embeds `PortNetplanRepositoryYaml.create`: the builder is constructed
with root `network` and the fluent chain adds version, renderer and the
`ethernets.ens3` subtree before converting to the map form. -/
def PortNetplanRepositoryYaml.create (data : Network) : Option YData :=
  let b0 : FluentYAMLBuilder := .tree (.mk "network" none []) []
  let b1 := b0.add_child "version" (some (.scalar (.int 2))) true
  let b2 := b1.add_child "renderer" (some (.scalar (.str "networkd"))) true
  let b3 := b2.add_child "ethernets" none false
  let b4 := b3.add_child "ens3" none false
  let b5 := b4.add_child "dhcp4" (some (.scalar (.str "no"))) true
  let b6 := b5.add_child "addresses"
    (some (.seq [.scalar (.str (data.ip_address.ip_address ++ "/24"))])) true
  let b7 := b6.add_child "routes"
    (some (.seq [.map [("to", .scalar (.str "0.0.0.0/0")),
                       ("via", .scalar (.str data.gateway.ip_address))]])) true
  let b8 := b7.add_child "nameservers" none false
  let b9 := b8.add_child "addresses"
    (some (.seq [.scalar (.str "8.8.8.8"), .scalar (.str "8.8.4.4")])) true
  b9.build

/-- Resolves a path from a node by repeated first-child name match; the
reference semantics of `navigate_to`'s walk. -/
def resolveNode : YNode → List String → Option YNode
  | n, [] => some n
  | n, k :: rest =>
    match FluentYAMLBuilder.splitFirstByName n.children k with
    | some (_, c, _) => resolveNode c rest
    | none => none

/-- First failing segment of a path walk, together with the successfully
traversed key sequence before it. -/
def firstMissing : YNode → List String → Option (String × List String)
  | _, [] => none
  | n, k :: rest =>
    match FluentYAMLBuilder.splitFirstByName n.children k with
    | none => some (k, [])
    | some (_, c, _) =>
      match firstMissing c rest with
      | some (s, p) => some (s, k :: p)
      | none => none

mutual
/-- Pre-order listing of a tree's nodes: a node comes before its subtree and
a node's subtree comes before its next sibling. -/
def preorder : YNode → List YNode
  | .mk n v cs => .mk n v cs :: preorderList cs

/-- Pre-order listing of a forest, left to right. -/
def preorderList : List YNode → List YNode
  | [] => []
  | c :: cs => preorder c ++ preorderList cs
end

/-- First node with the given name in a node list. -/
def firstNamed : List YNode → String → Option YNode
  | [], _ => none
  | n :: rest, nm => if n.name = nm then some n else firstNamed rest nm

/-- Association-list lookup on a map's entries (reference semantics for the
result dict of `to_dict`). -/
def lookupAssoc : List (String × YData) → String → Option YData
  | [], _ => none
  | (k', v) :: rest, k => if k' = k then some v else lookupAssoc rest k

/-- Replaces the value of an existing key in place. -/
def replaceAssoc : List (String × YData) → String → YData → List (String × YData)
  | [], _, _ => []
  | (k', v) :: rest, k, w =>
    if k' = k then (k', w) :: rest else (k', v) :: replaceAssoc rest k w

/-- Whether a piece of YAML data is a sequence. -/
def isSeqData : YData → Bool
  | .seq _ => true
  | _ => false


/-- Name of the builder's root node, if a root exists. -/
def FluentYAMLBuilder.rootName (b : FluentYAMLBuilder) : Option String :=
  b.rootNode.map YNode.name

/-!
Helper lemmas shared by the claim theorems.
-/

/-- Induction over a node with the hypothesis available on every child. -/
theorem YNode.childInduction (P : YNode → Prop)
    (h : ∀ n v cs, (∀ c ∈ cs, P c) → P (.mk n v cs)) : ∀ t, P t := by
  have H : ∀ k (t : YNode), sizeOf t ≤ k → P t := by
    intro k
    induction k with
    | zero =>
      intro t ht
      cases t with
      | mk n v cs => simp at ht
    | succ k ih =>
      intro t ht
      cases t with
      | mk n v cs =>
        refine h n v cs (fun c hc => ?_)
        have hlt : sizeOf c < sizeOf cs := List.sizeOf_lt_of_mem hc
        refine ih c ?_
        simp at ht
        omega
  exact fun t => H (sizeOf t) t le_rfl

/-- Induction over YAML data with the hypothesis available on every map
entry value. -/
theorem YData.entryInduction (P : YData → Prop)
    (hs : ∀ s, P (.scalar s)) (hq : ∀ xs, P (.seq xs))
    (hm : ∀ kvs, (∀ kv ∈ kvs, P kv.2) → P (.map kvs)) : ∀ d, P d := by
  have H : ∀ k (d : YData), sizeOf d ≤ k → P d := by
    intro k
    induction k with
    | zero =>
      intro d hd
      cases d <;> simp at hd
    | succ k ih =>
      intro d hd
      cases d with
      | scalar s => exact hs s
      | seq xs => exact hq xs
      | map kvs =>
        refine hm kvs (fun kv hkv => ?_)
        have h1 : sizeOf kv < sizeOf kvs := List.sizeOf_lt_of_mem hkv
        have h2 : sizeOf kv.2 < sizeOf kv := by cases kv; simp
        refine ih kv.2 ?_
        simp at hd
        omega
  exact fun d => H (sizeOf d) d le_rfl

/-- Repeated-key update on an existing non-list entry promotes it to a
two-element list in place. -/
theorem upsert_existing_promote : ∀ (acc : List (String × YData)) (k : String) (v w : YData),
    lookupAssoc acc k = some v → isSeqData v = false →
    FluentYAMLBuilder.upsert acc k w = replaceAssoc acc k (.seq [v, w]) := by
  intro acc
  induction acc with
  | nil => intro k v w hl _; simp [lookupAssoc] at hl
  | cons kv rest ih =>
    intro k v w hl hseq
    obtain ⟨k1, v1⟩ := kv
    by_cases hk : k1 = k
    · subst hk
      simp [lookupAssoc] at hl
      subst hl
      cases v1 <;> simp_all [FluentYAMLBuilder.upsert, replaceAssoc, isSeqData]
    · simp [lookupAssoc, hk] at hl
      simp [FluentYAMLBuilder.upsert, replaceAssoc, hk, ih k v w hl hseq]

/-- Repeated-key update on an existing list entry appends to it in place. -/
theorem upsert_existing_append : ∀ (acc : List (String × YData)) (k : String)
    (xs : List YData) (w : YData),
    lookupAssoc acc k = some (.seq xs) →
    FluentYAMLBuilder.upsert acc k w = replaceAssoc acc k (.seq (xs ++ [w])) := by
  intro acc
  induction acc with
  | nil => intro k xs w hl; simp [lookupAssoc] at hl
  | cons kv rest ih =>
    intro k xs w hl
    obtain ⟨k1, v1⟩ := kv
    by_cases hk : k1 = k
    · subst hk
      simp [lookupAssoc] at hl
      subst hl
      simp [FluentYAMLBuilder.upsert, replaceAssoc]
    · simp [lookupAssoc, hk] at hl
      simp [FluentYAMLBuilder.upsert, replaceAssoc, hk, ih k xs w hl]

/-- A fresh key is inserted at the end of the accumulated map. -/
theorem upsert_new : ∀ (acc : List (String × YData)) (k : String) (w : YData),
    lookupAssoc acc k = none →
    FluentYAMLBuilder.upsert acc k w = acc ++ [(k, w)] := by
  intro acc
  induction acc with
  | nil => intro k w _; simp [FluentYAMLBuilder.upsert]
  | cons kv rest ih =>
    intro k w hl
    obtain ⟨k1, v1⟩ := kv
    by_cases hk : k1 = k
    · simp [lookupAssoc, hk] at hl
    · simp [lookupAssoc, hk] at hl
      simp [FluentYAMLBuilder.upsert, hk, ih k w hl]

/-- C1: the round-trip claim fails on the code.  Loading the serialized form
of the tree `a -> b = 1` (text `a:\n  b: 1`, i.e. data `a ↦ (b ↦ 1)`) into a
fresh builder yields the tree with value `1` stored on the root `a` and a
valueless child `b`, because `_parse_dict_to_tree` adds each child with
`stay=True` — despite its "Navigate into child" comment the cursor never
moves into the child, so the scalar is assigned to the parent.  The loaded
tree therefore differs from the original. -/
theorem C1_roundtrip_code_bug :
    FluentYAMLBuilder.load_from_string .empty
        (FluentYAMLBuilder.toDict (.mk "a" none [.mk "b" (some (.scalar (.int 1))) []])) =
      .ok (.tree (.mk "a" (some (.scalar (.int 1))) [.mk "b" none []]) [])
    ∧ FluentYAMLBuilder.rootNode
        (.tree (.mk "a" (some (.scalar (.int 1))) [.mk "b" none []]) [])
        ≠ some (.mk "a" none [.mk "b" (some (.scalar (.int 1))) []]) :=
  ⟨rfl, by simp [FluentYAMLBuilder.rootNode, FluentYAMLBuilder.rebuild]⟩

/-- C2: converting a parent to a map combines same-named children into a
list in insertion order: children named "route" with values A then B yield
`route ↦ [A, B]`, a third yields `route ↦ [A, B, C]`; in general the first
collision promotes the existing non-list value to a one-element-then-two
list in place, later collisions append to the list rather than overwrite,
and a fresh name is inserted at the end. -/
theorem C2_duplicate_name_merge :
    (∀ (pn : String) (a b : Scalar),
      FluentYAMLBuilder.toDict (.mk pn none
        [.mk "route" (some (.scalar a)) [], .mk "route" (some (.scalar b)) []]) =
      .map [(pn, .map [("route", .seq [.scalar a, .scalar b])])])
    ∧ (∀ (pn : String) (a b c : Scalar),
      FluentYAMLBuilder.toDict (.mk pn none
        [.mk "route" (some (.scalar a)) [], .mk "route" (some (.scalar b)) [],
         .mk "route" (some (.scalar c)) []]) =
      .map [(pn, .map [("route", .seq [.scalar a, .scalar b, .scalar c])])])
    ∧ (∀ (acc : List (String × YData)) (k : String) (v w : YData),
        lookupAssoc acc k = some v → isSeqData v = false →
        FluentYAMLBuilder.upsert acc k w = replaceAssoc acc k (.seq [v, w]))
    ∧ (∀ (acc : List (String × YData)) (k : String) (xs : List YData) (w : YData),
        lookupAssoc acc k = some (.seq xs) →
        FluentYAMLBuilder.upsert acc k w = replaceAssoc acc k (.seq (xs ++ [w])))
    ∧ (∀ (acc : List (String × YData)) (k : String) (w : YData),
        lookupAssoc acc k = none →
        FluentYAMLBuilder.upsert acc k w = acc ++ [(k, w)]) :=
  ⟨fun _ _ _ => rfl, fun _ _ _ _ => rfl,
   upsert_existing_promote, upsert_existing_append, upsert_new⟩

/-- C2 witness: the promotion clause applied at a concrete collision. -/
theorem C2_duplicate_name_merge_witness :
    lookupAssoc [("route", YData.scalar (Scalar.int 1))] "route"
      = some (.scalar (.int 1))
    ∧ isSeqData (YData.scalar (Scalar.int 1)) = false
    ∧ FluentYAMLBuilder.upsert [("route", YData.scalar (Scalar.int 1))] "route"
        (.scalar (.int 2))
      = replaceAssoc [("route", YData.scalar (Scalar.int 1))] "route"
          (.seq [.scalar (.int 1), .scalar (.int 2)]) :=
  ⟨rfl, rfl, C2_duplicate_name_merge.2.2.1 _ _ _ _ rfl rfl⟩

/-- C3: for every Network input, the netplan repository's create operation
returns the nested map with top-level key `network` holding the scalar
entries `version` and `renderer` and an `ethernets` map keyed by `ens3` with
the `dhcp4` scalar, the `addresses` list, the `routes` list of to/via maps
and the `nameservers` map with its `addresses` list. -/
theorem C3_netplan_create_shape (data : Network) :
    PortNetplanRepositoryYaml.create data =
      some (.map [("network", .map
        [("version", .scalar (.int 2)),
         ("renderer", .scalar (.str "networkd")),
         ("ethernets", .map [("ens3", .map
           [("dhcp4", .scalar (.str "no")),
            ("addresses", .seq [.scalar (.str (data.ip_address.ip_address ++ "/24"))]),
            ("routes", .seq [.map [("to", .scalar (.str "0.0.0.0/0")),
                                   ("via", .scalar (.str data.gateway.ip_address))]]),
            ("nameservers", .map [("addresses",
              .seq [.scalar (.str "8.8.8.8"), .scalar (.str "8.8.4.4")])])])])])]) := rfl

/-- Dict assignment then lookup at the same index yields the new entity. -/
theorem rowGet_rowSet_self : ∀ (r : CommandRow) (i : Nat) (e : ExecutableCommandEntity),
    rowGet (rowSet r i e) i = some e := by
  intro r i e
  induction r with
  | nil => simp [rowSet, rowGet]
  | cons jf rest ih =>
    obtain ⟨j, f⟩ := jf
    by_cases hj : j = i
    · simp [rowSet, rowGet, hj]
    · simp [rowSet, rowGet, hj, ih]

/-- After `setdefault`, the key maps to its old row or the empty row. -/
theorem planRow_setDefault_self : ∀ (p : ExecutionPlan) (vm : String),
    planRow (planSetDefault p vm) vm = some ((planRow p vm).getD []) := by
  intro p vm
  induction p with
  | nil => simp [planSetDefault, planRow]
  | cons vr rest ih =>
    obtain ⟨v, r⟩ := vr
    by_cases hv : v = vm
    · simp [planSetDefault, planRow, hv]
    · simp [planSetDefault, planRow, hv, ih]

/-- Mapping an existing key's row is visible at that key's lookup. -/
theorem planRow_mapRow_self : ∀ (p : ExecutionPlan) (vm : String)
    (f : CommandRow → CommandRow),
    planRow (planMapRow p vm f) vm = (planRow p vm).map f := by
  intro p vm f
  induction p with
  | nil => simp [planMapRow, planRow]
  | cons vr rest ih =>
    obtain ⟨v, r⟩ := vr
    by_cases hv : v = vm
    · simp [planMapRow, planRow, hv]
    · simp [planMapRow, planRow, hv, ih]

/-- The entity placed by `planInsert` is found at `plan[vm][idx]`. -/
theorem planGet_planInsert_self (p : ExecutionPlan) (vm : String) (i : Nat)
    (e : ExecutableCommandEntity) :
    planGet (planInsert p vm i e) vm i = some e := by
  unfold planInsert planGet
  rw [planRow_mapRow_self, planRow_setDefault_self]
  simp [rowGet_rowSet_self]

/-- C4: when the VM directory holds exactly one instance of the strategy's
role, `categorize` inserts exactly one resolved command at
`plan[instance][template.index]`, with the instance name substituted for the
placeholder in description and command and the runner selected from the
template's runner kind; with zero or two-or-more matching instances the plan
is returned unchanged. -/
theorem C4_manager_strategy_categorize :
    (∀ (repo : List VmEntity) (t : VmType) (cmd : CommandEntity)
       (plan : ExecutionPlan) (inst : String),
       find_vm_instances_by_type repo t = [inst] →
       ManagerStrategy.categorize repo t cmd plan =
         planInsert plan inst cmd.index
           { vm_instance_name := inst
             description := substVmInstance cmd.description inst
             command := substVmInstance cmd.command inst
             runner := get_runner cmd.runner }
       ∧ planGet (ManagerStrategy.categorize repo t cmd plan) inst cmd.index =
           some { vm_instance_name := inst
                  description := substVmInstance cmd.description inst
                  command := substVmInstance cmd.command inst
                  runner := get_runner cmd.runner })
    ∧ (∀ (repo : List VmEntity) (t : VmType) (cmd : CommandEntity)
        (plan : ExecutionPlan),
        (find_vm_instances_by_type repo t).length ≠ 1 →
        ManagerStrategy.categorize repo t cmd plan = plan) := by
  constructor
  · intro repo t cmd plan inst h
    refine ⟨by simp [ManagerStrategy.categorize, h], ?_⟩
    simp [ManagerStrategy.categorize, h, planGet_planInsert_self]
  · intro repo t cmd plan h
    cases hm : find_vm_instances_by_type repo t with
    | nil => simp [ManagerStrategy.categorize, hm]
    | cons x xs =>
      cases xs with
      | nil => exact absurd (by simp [hm]) h
      | cons y ys => simp [ManagerStrategy.categorize, hm]

/-- C4 witness: one manager instance mgr-1 with the template
`echo \x7bvm_instance\x7d` yields `plan["mgr-1"][0].command = "echo mgr-1"`;
with two manager instances the plan stays empty. -/
theorem C4_manager_strategy_categorize_witness :
    find_vm_instances_by_type [⟨"mgr-1", .manager, "", "", "2G", "10G"⟩] .manager
      = ["mgr-1"]
    ∧ planGet (ManagerStrategy.categorize
        [⟨"mgr-1", .manager, "", "", "2G", "10G"⟩] .manager
        ⟨0, "run \x7bvm_instance\x7d", "echo \x7bvm_instance\x7d", "async"⟩ [])
        "mgr-1" 0 = some ⟨"mgr-1", "run mgr-1", "echo mgr-1", "async"⟩
    ∧ (find_vm_instances_by_type [⟨"m1", .manager, "", "", "2G", "10G"⟩,
        ⟨"m2", .manager, "", "", "2G", "10G"⟩] .manager).length ≠ 1
    ∧ ManagerStrategy.categorize [⟨"m1", .manager, "", "", "2G", "10G"⟩,
        ⟨"m2", .manager, "", "", "2G", "10G"⟩] .manager
        ⟨0, "run \x7bvm_instance\x7d", "echo \x7bvm_instance\x7d", "async"⟩ [] = [] :=
  ⟨rfl,
   (C4_manager_strategy_categorize.1 [⟨"mgr-1", .manager, "", "", "2G", "10G"⟩]
     .manager ⟨0, "run \x7bvm_instance\x7d", "echo \x7bvm_instance\x7d", "async"⟩
     [] "mgr-1" rfl).2,
   by decide,
   C4_manager_strategy_categorize.2 [⟨"m1", .manager, "", "", "2G", "10G"⟩,
     ⟨"m2", .manager, "", "", "2G", "10G"⟩]
     .manager ⟨0, "run \x7bvm_instance\x7d", "echo \x7bvm_instance\x7d", "async"⟩
     [] (by decide)⟩

/-- Removing the cursor's name from the parent's children removes exactly
the cursor when no earlier sibling shares its name. -/
theorem removeFirstByName_no_earlier : ∀ (l : List YNode) (cur : YNode) (r : List YNode),
    (∀ n ∈ l, n.name ≠ cur.name) →
    FluentYAMLBuilder.removeFirstByName (l ++ cur :: r) cur.name = l ++ r := by
  intro l cur r h
  induction l with
  | nil => simp [FluentYAMLBuilder.removeFirstByName]
  | cons x xs ih =>
    have hx : x.name ≠ cur.name := h x (by simp)
    simp [FluentYAMLBuilder.removeFirstByName, hx]
    exact ih (fun n hn => h n (by simp [hn]))

/-- C6 (amended): `delete_current` fails with the cannot-delete-root error
iff the cursor is the root; at a non-root cursor it removes from the
parent's children the first child bearing the cursor's name — which is
exactly the cursor node, with every other sibling kept, whenever no earlier
sibling shares the cursor's name — and repositions the cursor at the former
parent. -/
theorem C6_delete_current :
    (∀ cur : YNode,
      FluentYAMLBuilder.delete_current (.tree cur []) = .error .cannotDeleteRoot)
    ∧ (∀ (cur : YNode) (c : Crumb) (cs : List Crumb),
        FluentYAMLBuilder.delete_current (.tree cur (c :: cs)) =
          .ok (.tree (.mk c.name c.value
            (FluentYAMLBuilder.removeFirstByName (c.left ++ cur :: c.right) cur.name)) cs))
    ∧ (∀ (cur : YNode) (c : Crumb) (cs : List Crumb),
        (∀ n ∈ c.left, n.name ≠ cur.name) →
        FluentYAMLBuilder.delete_current (.tree cur (c :: cs)) =
          .ok (.tree (.mk c.name c.value (c.left ++ c.right)) cs)) := by
  refine ⟨fun cur => rfl, fun cur c cs => rfl, fun cur c cs h => ?_⟩
  simp [FluentYAMLBuilder.delete_current, removeFirstByName_no_earlier c.left cur c.right h]

/-- C6 counterexample: with two siblings both named `x` (values 1 then 2)
and the cursor on the second, `delete_current` removes the FIRST `x` — the
cursor node itself survives — contradicting the claim that exactly the
cursor node is removed and every same-named sibling stays.  The builder
state is reached by `add_child "r"; add_child "x" 1 stay; add_child "x" 2`. -/
theorem C6_delete_current_counterexample :
    (((FluentYAMLBuilder.empty.add_child "r" none false).add_child "x"
        (some (.scalar (.int 1))) true).add_child "x" (some (.scalar (.int 2))) false) =
      .tree (.mk "x" (some (.scalar (.int 2))) [])
        [⟨"r", none, [.mk "x" (some (.scalar (.int 1))) []], []⟩]
    ∧ FluentYAMLBuilder.delete_current
        (.tree (.mk "x" (some (.scalar (.int 2))) [])
          [⟨"r", none, [.mk "x" (some (.scalar (.int 1))) []], []⟩]) =
        .ok (.tree (.mk "r" none [.mk "x" (some (.scalar (.int 2))) []]) [])
    ∧ FluentYAMLBuilder.delete_current
        (.tree (.mk "x" (some (.scalar (.int 2))) [])
          [⟨"r", none, [.mk "x" (some (.scalar (.int 1))) []], []⟩]) ≠
        .ok (.tree (.mk "r" none [.mk "x" (some (.scalar (.int 1))) []]) []) :=
  ⟨rfl, rfl,
   by simp [FluentYAMLBuilder.delete_current, FluentYAMLBuilder.removeFirstByName,
            YNode.name]⟩

/-- C6 witness: deleting a uniquely-named non-root cursor removes exactly it
and moves the cursor to the former parent. -/
theorem C6_delete_current_witness :
    FluentYAMLBuilder.delete_current
        (.tree (.mk "x" (some (.scalar (.int 1))) []) [⟨"r", none, [], []⟩]) =
      .ok (.tree (.mk "r" none []) []) :=
  C6_delete_current.2.2 (.mk "x" (some (.scalar (.int 1))) []) ⟨"r", none, [], []⟩ []
    (by simp)

/-- Rebuilding from two focuses with the same name yields roots with the
same name. -/
theorem rebuild_name_congr : ∀ (crumbs : List Crumb) (x y : YNode),
    x.name = y.name →
    (FluentYAMLBuilder.rebuild x crumbs).name = (FluentYAMLBuilder.rebuild y crumbs).name := by
  intro crumbs
  induction crumbs with
  | nil => intro x y h; simpa [FluentYAMLBuilder.rebuild] using h
  | cons c cs ih =>
    intro x y _
    simp only [FluentYAMLBuilder.rebuild]
    exact ih _ _ rfl

/-- The parse routine keeps the builder rooted and never renames the root:
it only appends children, assigns values and moves the cursor. -/
theorem parseTree_tree : ∀ (d : YData) (cur : YNode) (crumbs : List Crumb),
    ∃ cur' crumbs',
      FluentYAMLBuilder.parseTree (.tree cur crumbs) d = .tree cur' crumbs'
      ∧ (FluentYAMLBuilder.rebuild cur' crumbs').name =
          (FluentYAMLBuilder.rebuild cur crumbs).name := by
  intro d
  induction d using YData.entryInduction with
  | hs s =>
    intro cur crumbs
    cases cur with
    | mk n v cs =>
      exact ⟨.mk n (some (.scalar s)) cs, crumbs,
        rfl, rebuild_name_congr crumbs _ _ rfl⟩
  | hq xs =>
    intro cur crumbs
    cases cur with
    | mk n v cs =>
      exact ⟨.mk n (some (.seq xs)) cs, crumbs,
        rfl, rebuild_name_congr crumbs _ _ rfl⟩
  | hm kvs ih =>
    suffices h : ∀ (kvs' : List (String × YData)),
        (∀ kv ∈ kvs', ∀ cur crumbs, ∃ cur' crumbs',
          FluentYAMLBuilder.parseTree (.tree cur crumbs) kv.2 = .tree cur' crumbs'
          ∧ (FluentYAMLBuilder.rebuild cur' crumbs').name =
              (FluentYAMLBuilder.rebuild cur crumbs).name) →
        ∀ cur crumbs, ∃ cur' crumbs',
          FluentYAMLBuilder.parseEntries (.tree cur crumbs) kvs' = .tree cur' crumbs'
          ∧ (FluentYAMLBuilder.rebuild cur' crumbs').name =
              (FluentYAMLBuilder.rebuild cur crumbs).name by
      intro cur crumbs
      simpa [FluentYAMLBuilder.parseTree] using h kvs ih cur crumbs
    intro kvs'
    induction kvs' with
    | nil => exact fun _ cur crumbs => ⟨cur, crumbs, rfl, rfl⟩
    | cons kv rest ihr =>
      intro hall cur crumbs
      obtain ⟨k, v⟩ := kv
      cases cur with
      | mk n vv cs =>
        have hadd : FluentYAMLBuilder.add_child (.tree (.mk n vv cs) crumbs) k none true =
            .tree (.mk n vv (cs ++ [.mk k none []])) crumbs := rfl
        obtain ⟨cur2, crumbs2, h2, hn2⟩ :=
          hall (k, v) (by simp) (.mk n vv (cs ++ [.mk k none []])) crumbs
        have hup : ∃ cur3 crumbs3,
            FluentYAMLBuilder.up (.tree cur2 crumbs2) = .tree cur3 crumbs3
            ∧ (FluentYAMLBuilder.rebuild cur3 crumbs3).name =
                (FluentYAMLBuilder.rebuild cur2 crumbs2).name := by
          cases crumbs2 with
          | nil => exact ⟨cur2, [], rfl, rfl⟩
          | cons c cs2 =>
            refine ⟨.mk c.name c.value (c.left ++ cur2 :: c.right), cs2, rfl, ?_⟩
            rfl
        obtain ⟨cur3, crumbs3, h3, hn3⟩ := hup
        obtain ⟨cur4, crumbs4, h4, hn4⟩ :=
          ihr (fun kv2 hm2 => hall kv2 (by simp [hm2])) cur3 crumbs3
        refine ⟨cur4, crumbs4, ?_, ?_⟩
        · simp only [FluentYAMLBuilder.parseEntries, hadd, h2, h3, h4]
        · rw [hn4, hn3, hn2]
          exact rebuild_name_congr crumbs _ _ rfl

/-- C7: on a builder with no root, loading makes the parsed top-level key
the root and hands the value beneath it to the merge routine; on a builder
with an existing root it proceeds into the merge routine only when the
parsed top-level key equals the root's name, and otherwise fails with the
root-mismatch error, returning no merged tree. -/
theorem C7_load_root_policy :
    (∀ (k : String) (v : YData) (rest : List (String × YData)),
      FluentYAMLBuilder.load_from_string .empty (.map ((k, v) :: rest)) =
        .ok (FluentYAMLBuilder.parseTree (.tree (.mk k none []) []) v))
    ∧ (∀ (k : String) (v : YData) (rest : List (String × YData)) (b' : FluentYAMLBuilder),
        FluentYAMLBuilder.load_from_string .empty (.map ((k, v) :: rest)) = .ok b' →
        FluentYAMLBuilder.rootName b' = some k)
    ∧ (∀ (cur : YNode) (crumbs : List Crumb) (k : String) (v : YData)
        (rest : List (String × YData)),
        (FluentYAMLBuilder.rebuild cur crumbs).name = k →
        FluentYAMLBuilder.load_from_string (.tree cur crumbs) (.map ((k, v) :: rest)) =
          .ok (FluentYAMLBuilder.parseTree (.tree cur crumbs) v))
    ∧ (∀ (cur : YNode) (crumbs : List Crumb) (k : String) (v : YData)
        (rest : List (String × YData)),
        (FluentYAMLBuilder.rebuild cur crumbs).name ≠ k →
        FluentYAMLBuilder.load_from_string (.tree cur crumbs) (.map ((k, v) :: rest)) =
          .error (.rootMismatch (FluentYAMLBuilder.rebuild cur crumbs).name k)) := by
  refine ⟨fun k v rest => rfl, ?_, ?_, ?_⟩
  · intro k v rest b' h
    obtain ⟨cur', crumbs', hp, hn⟩ := parseTree_tree v (.mk k none []) []
    have hb : b' = .tree cur' crumbs' := by
      have : FluentYAMLBuilder.parseTree (.tree (.mk k none []) []) v = b' := by
        have h0 : FluentYAMLBuilder.load_from_string .empty (.map ((k, v) :: rest)) =
            .ok (FluentYAMLBuilder.parseTree (.tree (.mk k none []) []) v) := rfl
        rw [h0] at h
        exact (Except.ok.injEq _ _).mp h
      rw [← this, hp]
    subst hb
    have hr : FluentYAMLBuilder.rootName (.tree cur' crumbs') =
        some ((FluentYAMLBuilder.rebuild cur' crumbs').name) := rfl
    rw [hr, hn]
    rfl
  · intro cur crumbs k v rest h
    simp [FluentYAMLBuilder.load_from_string, h]
  · intro cur crumbs k v rest h
    simp [FluentYAMLBuilder.load_from_string, h]

/-- C7 witness: a fresh builder adopts the top-level key `cfg` as root; a
builder rooted at `network` accepts a matching load and rejects the key
`root2` with the root-mismatch error. -/
theorem C7_load_root_policy_witness :
    (∀ b', FluentYAMLBuilder.load_from_string .empty
        (.map [("cfg", .scalar (.int 5))]) = .ok b' →
        FluentYAMLBuilder.rootName b' = some "cfg")
    ∧ FluentYAMLBuilder.load_from_string (.tree (.mk "network" none []) [])
        (.map [("network", .scalar (.int 5))]) =
        .ok (FluentYAMLBuilder.parseTree (.tree (.mk "network" none []) [])
          (.scalar (.int 5)))
    ∧ FluentYAMLBuilder.load_from_string (.tree (.mk "network" none []) [])
        (.map [("root2", .scalar (.int 1))]) =
        .error (.rootMismatch "network" "root2") :=
  ⟨fun b' h => C7_load_root_policy.2.1 "cfg" (.scalar (.int 5)) [] b' h,
   C7_load_root_policy.2.2.1 (.mk "network" none []) [] "network"
     (.scalar (.int 5)) [] rfl,
   C7_load_root_policy.2.2.2 (.mk "network" none []) [] "root2"
     (.scalar (.int 1)) [] (by decide)⟩

/-- When the path resolves, the descent loop ends focused on the resolved
node. -/
theorem navDescend_ok : ∀ (path : List String) (cur : YNode) (crumbs : List Crumb)
    (trav : List String) (m : YNode),
    resolveNode cur path = some m →
    ∃ crumbs', FluentYAMLBuilder.navDescend cur crumbs path trav = .ok (.tree m crumbs') := by
  intro path
  induction path with
  | nil =>
    intro cur crumbs trav m h
    simp [resolveNode] at h
    subst h
    exact ⟨crumbs, rfl⟩
  | cons key rest ih =>
    intro cur crumbs trav m h
    simp only [resolveNode] at h
    cases hs : FluentYAMLBuilder.splitFirstByName cur.children key with
    | none => rw [hs] at h; simp at h
    | some lmr =>
      obtain ⟨l, c, r⟩ := lmr
      rw [hs] at h
      simp only [FluentYAMLBuilder.navDescend, hs]
      exact ih c _ _ m h

/-- When the walk fails, the descent loop raises the path-not-found error
naming the first absent segment and the traversed keys before it. -/
theorem navDescend_err : ∀ (path : List String) (cur : YNode) (crumbs : List Crumb)
    (trav : List String) (s : String) (p : List String),
    firstMissing cur path = some (s, p) →
    FluentYAMLBuilder.navDescend cur crumbs path trav =
      .error (.pathNotFound s (trav ++ p)) := by
  intro path
  induction path with
  | nil => intro cur crumbs trav s p h; simp [firstMissing] at h
  | cons key rest ih =>
    intro cur crumbs trav s p h
    cases hs : FluentYAMLBuilder.splitFirstByName cur.children key with
    | none =>
      simp only [firstMissing, hs] at h
      simp at h
      obtain ⟨hsk, hp⟩ := h
      subst hsk; subst hp
      simp [FluentYAMLBuilder.navDescend, hs]
    | some lmr =>
      obtain ⟨l, c, r⟩ := lmr
      simp only [firstMissing, hs] at h
      cases hf : firstMissing c rest with
      | none => rw [hf] at h; simp at h
      | some sp =>
        obtain ⟨s0, p0⟩ := sp
        rw [hf] at h
        simp at h
        obtain ⟨hs0, hp0⟩ := h
        subst hs0; subst hp0
        simp only [FluentYAMLBuilder.navDescend, hs]
        have := ih c (⟨cur.name, cur.value, l, r⟩ :: crumbs) (trav ++ [key]) s0 p0 hf
        simpa [List.append_assoc] using this

/-- A path walk fails exactly when a first missing segment exists. -/
theorem resolveNode_none_iff : ∀ (path : List String) (cur : YNode),
    resolveNode cur path = none ↔ ∃ s p, firstMissing cur path = some (s, p) := by
  intro path
  induction path with
  | nil => intro cur; simp [resolveNode, firstMissing]
  | cons key rest ih =>
    intro cur
    cases hs : FluentYAMLBuilder.splitFirstByName cur.children key with
    | none => simp [resolveNode, firstMissing, hs]
    | some lmr =>
      obtain ⟨l, c, r⟩ := lmr
      simp only [resolveNode, firstMissing, hs]
      rw [ih c]
      constructor
      · rintro ⟨s, p, hf⟩
        exact ⟨s, key :: p, by rw [hf]⟩
      · rintro ⟨s, p, hf⟩
        cases hf2 : firstMissing c rest with
        | none => rw [hf2] at hf; simp at hf
        | some sp =>
          obtain ⟨s1, p1⟩ := sp
          exact ⟨s1, p1, rfl⟩

/-- C8: `navigate_to` moves the cursor to the node reached by following each
segment from the root when every segment matches a child name, and
otherwise fails with a path-not-found error naming the first absent segment
and the successfully traversed key sequence; on the tree `r -> a -> b`,
navigating to a, b succeeds, the subsequent `up` returns to `a`, and
navigating to a, missing fails naming `missing` with traversed key `a`. -/
theorem C8_navigate_to :
    (∀ (cur : YNode) (crumbs : List Crumb) (path : List String) (m : YNode),
      resolveNode (FluentYAMLBuilder.rebuild cur crumbs) path = some m →
      ∃ crumbs', FluentYAMLBuilder.navigate_to (.tree cur crumbs) path =
        .ok (.tree m crumbs'))
    ∧ (∀ (cur : YNode) (crumbs : List Crumb) (path : List String) (s : String)
        (p : List String),
      firstMissing (FluentYAMLBuilder.rebuild cur crumbs) path = some (s, p) →
      FluentYAMLBuilder.navigate_to (.tree cur crumbs) path =
        .error (.pathNotFound s p))
    ∧ (∀ (cur : YNode) (crumbs : List Crumb) (path : List String),
      resolveNode (FluentYAMLBuilder.rebuild cur crumbs) path = none ↔
        ∃ s p, firstMissing (FluentYAMLBuilder.rebuild cur crumbs) path = some (s, p))
    ∧ FluentYAMLBuilder.navigate_to
        (.tree (.mk "r" none [.mk "a" none [.mk "b" none []]]) []) ["a", "b"] =
        .ok (.tree (.mk "b" none []) [⟨"a", none, [], []⟩, ⟨"r", none, [], []⟩])
    ∧ FluentYAMLBuilder.up
        (.tree (.mk "b" none []) [⟨"a", none, [], []⟩, ⟨"r", none, [], []⟩]) =
        .tree (.mk "a" none [.mk "b" none []]) [⟨"r", none, [], []⟩]
    ∧ FluentYAMLBuilder.navigate_to
        (.tree (.mk "r" none [.mk "a" none [.mk "b" none []]]) []) ["a", "missing"] =
        .error (.pathNotFound "missing" ["a"]) := by
  refine ⟨?_, ?_, ?_, rfl, rfl, rfl⟩
  · intro cur crumbs path m h
    exact navDescend_ok path _ [] [] m h
  · intro cur crumbs path s p h
    simpa using navDescend_err path _ [] [] s p h
  · intro cur crumbs path
    exact resolveNode_none_iff path _

/-- C8 witness: the general clauses applied on the concrete tree
`r -> a -> b`. -/
theorem C8_navigate_to_witness :
    resolveNode (FluentYAMLBuilder.rebuild (.mk "r" none [.mk "a" none [.mk "b" none []]]) [])
        ["a", "b"] = some (.mk "b" none [])
    ∧ (∃ crumbs', FluentYAMLBuilder.navigate_to
        (.tree (.mk "r" none [.mk "a" none [.mk "b" none []]]) []) ["a", "b"] =
        .ok (.tree (.mk "b" none []) crumbs'))
    ∧ firstMissing
        (FluentYAMLBuilder.rebuild (.mk "r" none [.mk "a" none [.mk "b" none []]]) [])
        ["a", "missing"] = some ("missing", ["a"])
    ∧ FluentYAMLBuilder.navigate_to
        (.tree (.mk "r" none [.mk "a" none [.mk "b" none []]]) []) ["a", "missing"] =
        .error (.pathNotFound "missing" ["a"]) :=
  ⟨rfl,
   C8_navigate_to.1 (.mk "r" none [.mk "a" none [.mk "b" none []]]) [] ["a", "b"]
     (.mk "b" none []) rfl,
   rfl,
   C8_navigate_to.2.1 (.mk "r" none [.mk "a" none [.mk "b" none []]]) []
     ["a", "missing"] "missing" ["a"] rfl⟩

/-- First named node in a concatenation: the left part wins. -/
theorem firstNamed_append : ∀ (xs ys : List YNode) (nm : String),
    firstNamed (xs ++ ys) nm =
      match firstNamed xs nm with
      | some m => some m
      | none => firstNamed ys nm := by
  intro xs ys nm
  induction xs with
  | nil => simp [firstNamed]
  | cons x rest ih =>
    by_cases hx : x.name = nm
    · simp [firstNamed, hx]
    · simp [firstNamed, hx, ih]

/-- The child loop of the recursive search agrees with the first pre-order
match over the forest of children, given that each child's subtree search
agrees with its pre-order first match. -/
theorem searchChildren_spec : ∀ (nm pn : String) (pv : Option NodeVal) (cs : List YNode),
    (∀ c ∈ cs, ∀ crumbs,
      (FluentYAMLBuilder.searchZ nm c crumbs = none ∧ firstNamed (preorder c) nm = none)
      ∨ (∃ m cr, FluentYAMLBuilder.searchZ nm c crumbs = some (.tree m cr)
          ∧ firstNamed (preorder c) nm = some m)) →
    ∀ (crumbs : List Crumb) (leftAcc : List YNode),
    (FluentYAMLBuilder.searchChildren nm pn pv crumbs leftAcc cs = none
      ∧ firstNamed (preorderList cs) nm = none)
    ∨ (∃ m cr,
        FluentYAMLBuilder.searchChildren nm pn pv crumbs leftAcc cs = some (.tree m cr)
        ∧ firstNamed (preorderList cs) nm = some m) := by
  intro nm pn pv cs
  induction cs with
  | nil =>
    intro _ crumbs leftAcc
    left
    exact ⟨rfl, rfl⟩
  | cons c rest ih =>
    intro hall crumbs leftAcc
    rcases hall c (by simp) (⟨pn, pv, leftAcc, rest⟩ :: crumbs) with ⟨hz, hf⟩ | ⟨m, cr, hz, hf⟩
    · rcases ih (fun c2 h2 => hall c2 (by simp [h2])) crumbs (leftAcc ++ [c]) with
        ⟨hz2, hf2⟩ | ⟨m, cr, hz2, hf2⟩
      · left
        refine ⟨by simp [FluentYAMLBuilder.searchChildren, hz, hz2], ?_⟩
        rw [preorderList, firstNamed_append, hf]
        exact hf2
      · right
        refine ⟨m, cr, by simp [FluentYAMLBuilder.searchChildren, hz, hz2], ?_⟩
        rw [preorderList, firstNamed_append, hf]
        exact hf2
    · right
      refine ⟨m, cr, by simp [FluentYAMLBuilder.searchChildren, hz], ?_⟩
      rw [preorderList, firstNamed_append, hf]

/-- The recursive search of `navigate_to_recursively` returns the first
node, in pre-order, bearing the requested name (with its zipper context),
and returns nothing exactly when no node bears it. -/
theorem searchZ_spec : ∀ (nm : String) (t : YNode) (crumbs : List Crumb),
    (FluentYAMLBuilder.searchZ nm t crumbs = none ∧ firstNamed (preorder t) nm = none)
    ∨ (∃ m cr, FluentYAMLBuilder.searchZ nm t crumbs = some (.tree m cr)
        ∧ firstNamed (preorder t) nm = some m) := by
  intro nm t
  induction t using YNode.childInduction with
  | h n v cs ihc =>
    intro crumbs
    by_cases hn : n = nm
    · right
      refine ⟨.mk n v cs, crumbs, ?_, ?_⟩
      · simp [FluentYAMLBuilder.searchZ, hn]
      · simp [preorder, firstNamed, YNode.name, hn]
    · rcases searchChildren_spec nm n v cs (fun c hc crumbs2 => ihc c hc crumbs2) crumbs []
        with ⟨hz, hf⟩ | ⟨m, cr, hz, hf⟩
      · left
        refine ⟨?_, ?_⟩
        · simp [FluentYAMLBuilder.searchZ, hn, hz]
        · simp [preorder, firstNamed, YNode.name, hn, hf]
      · right
        refine ⟨m, cr, ?_, ?_⟩
        · simp [FluentYAMLBuilder.searchZ, hn, hz]
        · simp [preorder, firstNamed, YNode.name, hn, hf]

/-- C9: `navigate_to_recursively` moves the cursor to the first node whose
name matches in pre-order traversal from the root — a node is matched
before its subtree, and a subtree is searched fully before the next
sibling — and fails with the node-not-found error when no node in the tree
bears the name. -/
theorem C9_navigate_to_recursively :
    (∀ (cur : YNode) (crumbs : List Crumb) (nm : String) (m : YNode),
      firstNamed (preorder (FluentYAMLBuilder.rebuild cur crumbs)) nm = some m →
      ∃ cr, FluentYAMLBuilder.navigate_to_recursively (.tree cur crumbs) nm =
        .ok (.tree m cr))
    ∧ (∀ (cur : YNode) (crumbs : List Crumb) (nm : String),
      firstNamed (preorder (FluentYAMLBuilder.rebuild cur crumbs)) nm = none →
      FluentYAMLBuilder.navigate_to_recursively (.tree cur crumbs) nm =
        .error (.nodeNotFound nm)) := by
  constructor
  · intro cur crumbs nm m hf
    rcases searchZ_spec nm (FluentYAMLBuilder.rebuild cur crumbs) [] with
      ⟨hz, hf0⟩ | ⟨m0, cr, hz, hf0⟩
    · rw [hf0] at hf
      exact absurd hf (by simp)
    · rw [hf0] at hf
      have hm : m0 = m := by injection hf
      subst hm
      exact ⟨cr, by simp [FluentYAMLBuilder.navigate_to_recursively, hz]⟩
  · intro cur crumbs nm hf
    rcases searchZ_spec nm (FluentYAMLBuilder.rebuild cur crumbs) [] with
      ⟨hz, hf0⟩ | ⟨m0, cr, hz, hf0⟩
    · simp [FluentYAMLBuilder.navigate_to_recursively, hz]
    · rw [hf0] at hf
      exact absurd hf (by simp)

/-- C9 witness: on the tree `r -> [d -> [x = 2], x = 1]` the first pre-order
match for `x` is the nested node under `d` (a subtree is searched before the
next sibling), and searching for an absent name fails. -/
theorem C9_navigate_to_recursively_witness :
    firstNamed (preorder (FluentYAMLBuilder.rebuild
        (.mk "r" none [.mk "d" none [.mk "x" (some (.scalar (.int 2))) []],
          .mk "x" (some (.scalar (.int 1))) []]) [])) "x" =
      some (.mk "x" (some (.scalar (.int 2))) [])
    ∧ (∃ cr, FluentYAMLBuilder.navigate_to_recursively
        (.tree (.mk "r" none [.mk "d" none [.mk "x" (some (.scalar (.int 2))) []],
          .mk "x" (some (.scalar (.int 1))) []]) []) "x" =
        .ok (.tree (.mk "x" (some (.scalar (.int 2))) []) cr))
    ∧ firstNamed (preorder (FluentYAMLBuilder.rebuild
        (.mk "r" none [.mk "d" none [.mk "x" (some (.scalar (.int 2))) []],
          .mk "x" (some (.scalar (.int 1))) []]) [])) "z" = none
    ∧ FluentYAMLBuilder.navigate_to_recursively
        (.tree (.mk "r" none [.mk "d" none [.mk "x" (some (.scalar (.int 2))) []],
          .mk "x" (some (.scalar (.int 1))) []]) []) "z" =
        .error (.nodeNotFound "z") :=
  ⟨rfl,
   C9_navigate_to_recursively.1
     (.mk "r" none [.mk "d" none [.mk "x" (some (.scalar (.int 2))) []],
       .mk "x" (some (.scalar (.int 1))) []]) [] "x"
     (.mk "x" (some (.scalar (.int 2))) []) rfl,
   rfl,
   C9_navigate_to_recursively.2
     (.mk "r" none [.mk "d" none [.mk "x" (some (.scalar (.int 2))) []],
       .mk "x" (some (.scalar (.int 1))) []]) [] "z" rfl⟩

/-- Every status event emitted by a unit's command loop is an execute
event, never the terminal finished marker. -/
theorem executeUnit_go_task : ∀ (runCmd : ExecutableCommandEntity → Except String String)
    (row : CommandRow),
    ∀ ev ∈ (executeUnit.go runCmd row).2, ev.task = "execute" := by
  intro runCmd row
  induction row with
  | nil => simp [executeUnit.go]
  | cons ie rest ih =>
    obtain ⟨i, e⟩ := ie
    intro ev hev
    cases hr : runCmd e with
    | ok out =>
      simp only [executeUnit.go, hr] at hev
      cases hg : executeUnit.go runCmd rest with
      | mk r evs =>
        rw [hg] at hev
        simp at hev
        rcases hev with h | h
        · rw [h]
        · exact ih ev (by rw [hg]; exact h)
    | error msg =>
      simp only [executeUnit.go, hr] at hev
      simp at hev
      rw [hev]

/-- Events of a whole unit are execute events. -/
theorem executeUnit_task : ∀ (runCmd : ExecutableCommandEntity → Except String String)
    (row : CommandRow),
    ∀ ev ∈ (executeUnit runCmd row).2, ev.task = "execute" := by
  intro runCmd row
  exact executeUnit_go_task runCmd (sortByIndex row)

/-- C5: the concurrent runner aggregates exactly one result per VM instance,
each instance's result being the outcome of executing that instance's own
command row alone (so one instance's captured failure can neither change nor
cancel another's), a unit's failure appears as that instance's error value
in the aggregate, and the trace consists of the units' execute events
followed by the single terminal status update, emitted only after every
unit's events and before the results are returned. -/
theorem C5_concurrent_runner_aggregation :
    (∀ (runCmd : ExecutableCommandEntity → Except String String) (plan : ExecutionPlan),
      (CommandRunnerUI.run runCmd plan).results.length = plan.length)
    ∧ (∀ (runCmd : ExecutableCommandEntity → Except String String)
        (plan : ExecutionPlan) (i : Nat),
      (CommandRunnerUI.run runCmd plan).results[i]? =
        (plan[i]?).map (fun kv => (executeUnit runCmd ((planRow plan kv.1).getD [])).1))
    ∧ (∀ (runCmd : ExecutableCommandEntity → Except String String)
        (plan : ExecutionPlan) (i : Nat) (kv : String × CommandRow) (msg : String),
      plan[i]? = some kv →
      (executeUnit runCmd ((planRow plan kv.1).getD [])).1 = .error msg →
      (CommandRunnerUI.run runCmd plan).results[i]? = some (.error msg))
    ∧ (∀ (runCmd : ExecutableCommandEntity → Except String String) (plan : ExecutionPlan),
      (CommandRunnerUI.run runCmd plan).trace =
        ((plan.map (fun kv => kv.1)).map
          (fun vm => (executeUnit runCmd ((planRow plan vm).getD [])).2)).flatten
        ++ [⟨"finished", "execution", "success", "all"⟩])
    ∧ (∀ (runCmd : ExecutableCommandEntity → Except String String) (plan : ExecutionPlan),
      (CommandRunnerUI.run runCmd plan).trace.countP
        (fun ev => decide (ev.task = "finished")) = 1) := by
  refine ⟨?_, ?_, ?_, ?_, ?_⟩
  · intro runCmd plan
    simp [CommandRunnerUI.run]
  · intro runCmd plan i
    simp [CommandRunnerUI.run, List.getElem?_map, Option.map_map]
    rfl
  · intro runCmd plan i kv msg hkv hmsg
    have hb : (CommandRunnerUI.run runCmd plan).results[i]? =
        (plan[i]?).map (fun kv => (executeUnit runCmd ((planRow plan kv.1).getD [])).1) := by
      simp [CommandRunnerUI.run, List.getElem?_map, Option.map_map]
      rfl
    rw [hb, hkv]
    simp [hmsg]
  · intro runCmd plan
    simp [CommandRunnerUI.run, List.map_map]
    rfl
  · intro runCmd plan
    have ht : (CommandRunnerUI.run runCmd plan).trace =
        ((plan.map (fun kv => kv.1)).map
          (fun vm => (executeUnit runCmd ((planRow plan vm).getD [])).2)).flatten
        ++ [⟨"finished", "execution", "success", "all"⟩] := by
      simp [CommandRunnerUI.run, List.map_map]
      rfl
    rw [ht, List.countP_append]
    have hz : (((plan.map (fun kv => kv.1)).map
        (fun vm => (executeUnit runCmd ((planRow plan vm).getD [])).2)).flatten).countP
        (fun ev => decide (ev.task = "finished")) = 0 := by
      rw [List.countP_eq_zero]
      intro ev hev
      rw [List.mem_flatten] at hev
      obtain ⟨l, hl, hevl⟩ := hev
      rw [List.mem_map] at hl
      obtain ⟨vm, _, hvm⟩ := hl
      have := executeUnit_task runCmd ((planRow plan vm).getD []) ev (by rw [hvm]; exact hevl)
      simp [this]
    rw [hz]
    rfl

/-- C5 witness: with instance `a` holding a failing then a further command
and instance `b` holding one succeeding command, the aggregate reports an
error for `a` and a success for `b`. -/
theorem C5_concurrent_runner_aggregation_witness :
    (([("a", [(0, ⟨"a", "d1", "boom", "async"⟩), (1, ⟨"a", "d2", "go", "async"⟩)]),
       ("b", [(0, ⟨"b", "d3", "go", "async"⟩)])] : ExecutionPlan)[0]? =
      some ("a", [(0, ⟨"a", "d1", "boom", "async"⟩), (1, ⟨"a", "d2", "go", "async"⟩)]))
    ∧ (CommandRunnerUI.run
        (fun e => if e.command = "boom" then .error "boom" else .ok "out")
        [("a", [(0, ⟨"a", "d1", "boom", "async"⟩), (1, ⟨"a", "d2", "go", "async"⟩)]),
         ("b", [(0, ⟨"b", "d3", "go", "async"⟩)])]).results[0]? =
      some (.error "boom")
    ∧ (CommandRunnerUI.run
        (fun e => if e.command = "boom" then .error "boom" else .ok "out")
        [("a", [(0, ⟨"a", "d1", "boom", "async"⟩), (1, ⟨"a", "d2", "go", "async"⟩)]),
         ("b", [(0, ⟨"b", "d3", "go", "async"⟩)])]).results[1]? =
      some (.ok ["out"]) :=
  ⟨rfl,
   C5_concurrent_runner_aggregation.2.2.1
     (fun e => if e.command = "boom" then .error "boom" else .ok "out")
     [("a", [(0, ⟨"a", "d1", "boom", "async"⟩), (1, ⟨"a", "d2", "go", "async"⟩)]),
      ("b", [(0, ⟨"b", "d3", "go", "async"⟩)])] 0
     ("a", [(0, ⟨"a", "d1", "boom", "async"⟩), (1, ⟨"a", "d2", "go", "async"⟩)])
     "boom" rfl rfl,
   (C5_concurrent_runner_aggregation.2.1
     (fun e => if e.command = "boom" then .error "boom" else .ok "out")
     [("a", [(0, ⟨"a", "d1", "boom", "async"⟩), (1, ⟨"a", "d2", "go", "async"⟩)]),
      ("b", [(0, ⟨"b", "d3", "go", "async"⟩)])] 1).trans rfl⟩

/-- C10: the single terminal status update emitted after all instance tasks
finish always carries task `finished`, step `execution`, result `success`
and instance `all` — for every run-command oracle and every plan, including
those whose units fail — so the terminal marker never reflects the
aggregated outcomes. -/
theorem C10_terminal_status_always_success :
    ∀ (runCmd : ExecutableCommandEntity → Except String String) (plan : ExecutionPlan),
    (CommandRunnerUI.run runCmd plan).trace.getLast? =
      some ⟨"finished", "execution", "success", "all"⟩ := by
  intro runCmd plan
  have ht : (CommandRunnerUI.run runCmd plan).trace =
      ((plan.map (fun kv => kv.1)).map
        (fun vm => (executeUnit runCmd ((planRow plan vm).getD [])).2)).flatten
      ++ [⟨"finished", "execution", "success", "all"⟩] := by
    simp [CommandRunnerUI.run, List.map_map]
    rfl
  rw [ht]
  simp
